import Mathlib

/-!
Verification development for the Signal Classification and Reconstruction
Network repository.  The repository has two components:

* a Dataset Builder notebook (`create_comp_noisy_emnist_letters_training_data.ipynb`)
  that median-downsamples 28×28 EMNIST letter images, imposes Poisson noise,
  clips to [0,255], scales to [0,1] and flattens; and
* a Model Trainer notebook that one-hot encodes labels and runs a staged
  training loop (`fit_model`) accumulating per-epoch metric histories.

Images are embedded as `List (List ℚ)` (rectangular 28×28 grids in the
intended use), arrays of images as `List (List (List ℚ))`.  Poisson draws are
natural numbers supplied by an oracle (the sampler), since the only facts the
repository relies on are that draws are naturals depending on the pixel's own
rate.  Python exceptions are embedded with an explicit error type `PyErr`.
-/

/-- Python exceptions that the embedded code can raise. -/
inductive PyErr where
  | valueError (msg : String)
  | keyError (key : String)
  | unboundLocal (name : String)
deriving DecidableEq, Repr

instance {ε α : Type} [DecidableEq ε] [DecidableEq α] : DecidableEq (Except ε α) :=
  fun a b =>
    match a, b with
    | Except.ok x, Except.ok y =>
      if h : x = y then isTrue (by rw [h]) else isFalse (by simp [h])
    | Except.error x, Except.error y =>
      if h : x = y then isTrue (by rw [h]) else isFalse (by simp [h])
    | Except.ok _, Except.error _ => isFalse (by simp)
    | Except.error _, Except.ok _ => isFalse (by simp)

/-- Embedding of `np.median` of a list of rationals: sort, then take the middle element
(odd length) or the mean of the two middle elements (even length). -/
def npMedian (l : List ℚ) : ℚ :=
  let s := List.insertionSort (· ≤ ·) l
  if l.length % 2 = 1 then s.getD (l.length / 2) 0
  else (s.getD (l.length / 2 - 1) 0 + s.getD (l.length / 2) 0) / 2

/-- Number of windows `view_as_windows` produces along an axis of size `n`
with window size `w` and step `w`: `(n - w) // w + 1`. -/
def nWindows (n w : ℕ) : ℕ := (n - w) / w + 1

/-- The (row-major) list of values of the `w×w` window whose top-left corner
is at `(i*w, j*w)` — the window `view_as_windows(img, (w,w), step=w)[i][j]`. -/
def windowVals (img : List (List ℚ)) (w i j : ℕ) : List ℚ :=
  ((List.range w).map (fun a =>
    (List.range w).map (fun b => (img.getD (i * w + a) []).getD (j * w + b) 0))).flatten

/-- Embedding of `median_downsampling(in_image, cmp_dim)` of the Dataset Builder:
if `cmp_dim < 15`, slide a `(28//cmp_dim)`-sized square window with step equal
to the window size (`view_as_windows`) and take `np.median` over each window;
otherwise return the image unchanged. -/
def median_downsampling (in_image : List (List ℚ)) (cmp_dim : ℕ) : List (List ℚ) :=
  if cmp_dim < 15 then
    let window_size := 28 / cmp_dim
    let nr := nWindows in_image.length window_size
    let nc := nWindows (in_image.headD []).length window_size
    (List.range nr).map (fun i =>
      (List.range nc).map (fun j => npMedian (windowVals in_image window_size i j)))
  else in_image

/-- Numpy broadcast of a row into a length-`d` slot: succeeds unchanged when
the length matches, by replication when the length is 1, otherwise fails. -/
def broadcastRow (r : List ℚ) (d : ℕ) : Option (List ℚ) :=
  if r.length = d then some r
  else if r.length = 1 then some (List.replicate d (r.getD 0 0))
  else none

/-- Broadcast every row of a matrix into length-`d` slots, failing if any
row fails to broadcast. -/
def broadcastRows : List (List ℚ) → ℕ → Option (List (List ℚ))
  | [], _ => some []
  | r :: rest, d =>
    match broadcastRow r d, broadcastRows rest d with
    | some r2, some rest2 => some (r2 :: rest2)
    | _, _ => none

/-- Numpy broadcast of a 2-D matrix into a `d×d` slot (the semantics of the
assignment `out_array[idx] = ...` where `out_array` has shape `(n, d, d)`):
each axis must either match `d` or have size 1 (replicated). -/
def broadcast2 (m : List (List ℚ)) (d : ℕ) : Option (List (List ℚ)) :=
  if m.length = d then broadcastRows m d
  else if m.length = 1 then broadcastRows (List.replicate d (m.getD 0 [])) d
  else none

/-- One iteration of the `down_sample_list` loop: compress one image and
assign it into a `(cmp_dim, cmp_dim)` slot of the preallocated output array,
raising `ValueError` if the shapes cannot broadcast. -/
def down_sample_one (image : List (List ℚ)) (cmp_dim : ℕ) :
    Except PyErr (List (List ℚ)) :=
  match broadcast2 (median_downsampling image cmp_dim) cmp_dim with
  | some g => Except.ok g
  | none => Except.error (PyErr.valueError "could not broadcast input array")

/-- Embedding of `down_sample_list(in_array, cmp_dim)`: allocate `np.empty((n, d, d))` and
assign `median_downsampling` of each entry in order; the first shape mismatch
aborts the loop with a `ValueError`. -/
def down_sample_list : List (List (List ℚ)) → ℕ →
    Except PyErr (List (List (List ℚ)))
  | [], _ => Except.ok []
  | image :: rest, cmp_dim =>
    match down_sample_one image cmp_dim with
    | Except.error e => Except.error e
    | Except.ok g =>
      match down_sample_list rest cmp_dim with
      | Except.error e => Except.error e
      | Except.ok gs => Except.ok (g :: gs)

/-- Poisson perturbation of a single image, with the sampler restricted to
that image's rows and columns: entry `(i, j)` of the result is the draw
`noiseRC i j rate` where `rate` is the pixel's own intensity. -/
def poissonGrid (noiseRC : ℕ → ℕ → ℚ → ℕ) (m : List (List ℚ)) :
    List (List ℕ) :=
  m.enum.map (fun ri => ri.2.enum.map (fun cj => noiseRC ri.1 cj.1 cj.2))

/-- Embedding of `np.random.poisson(lam=arr)` for a 3-D array, with the sampler given as an
oracle `noise sampleIdx rowIdx colIdx rate` returning the natural-number draw
for that entry. -/
def poissonArr (noise : ℕ → ℕ → ℕ → ℚ → ℕ) (arr : List (List (List ℚ))) :
    List (List (List ℕ)) :=
  arr.enum.map (fun si => poissonGrid (noise si.1) si.2)

/-- Embedding of `np.clip(x, lo, hi)` on integers. -/
def np_clip (x lo hi : ℤ) : ℤ := max lo (min x hi)

/-- Embedding of `np.clip(·, 0, 255)` on a single image of Poisson draws. -/
def clipGrid (m : List (List ℕ)) : List (List ℤ) :=
  m.map (fun r => r.map (fun (x : ℕ) => np_clip (x : ℤ) 0 255))

/-- Embedding of `np.clip(arr, 0, 255)` over a 3-D array of Poisson draws. -/
def clipArr (arr : List (List (List ℕ))) : List (List (List ℤ)) :=
  arr.map clipGrid

/-- Scaling one clipped matrix to `[0,1]`: `matrix / 255` entrywise. -/
def scaleGrid (m : List (List ℤ)) : List (List ℚ) :=
  m.map (fun r => r.map (fun (x : ℤ) => (x : ℚ) / 255))

/-- The per-level scaled noisy grids of `create_training_data` before
flattening: compress (already done), Poisson-perturb, clip, scale. -/
def noisyGrids (noise : ℕ → ℕ → ℕ → ℚ → ℕ) (cmp : List (List (List ℚ))) :
    List (List (List ℚ)) :=
  (clipArr (poissonArr noise cmp)).map scaleGrid

/-- Embedding of `create_training_data(clean_train, clean_test, cmp_dim, out_dim)`:
compress both corpora with `down_sample_list`, add Poisson noise (oracles
`noiseTr`, `noiseTe` supply the independent draws for the two corpora), clip
to `[0,255]`, scale by `1/255` and flatten each matrix to a `cmp_dim²`-vector
(`matrix.reshape(cmp_dim**2,)`, row-major).  The `out_dim` argument is
accepted but never used, exactly as in the source. -/
def create_training_data (noiseTr noiseTe : ℕ → ℕ → ℕ → ℚ → ℕ)
    (clean_train clean_test : List (List (List ℚ))) (cmp_dim out_dim : ℕ) :
    Except PyErr (List (List ℚ) × List (List ℚ)) := do
  let cmp_train ← down_sample_list clean_train cmp_dim
  let cmp_test ← down_sample_list clean_test cmp_dim
  let noisy_train := (noisyGrids noiseTr cmp_train).map List.flatten
  let noisy_test := (noisyGrids noiseTe cmp_test).map List.flatten
  return (noisy_train, noisy_test)

/-- The whole per-sample pipeline of the Dataset Builder on one image:
compress-and-assign, Poisson-perturb, clip, scale, flatten.  Used to state
that `create_training_data` processes each sample independently. -/
def sample_pipeline (noiseRC : ℕ → ℕ → ℚ → ℕ) (cmp_dim : ℕ)
    (img : List (List ℚ)) : Except PyErr (List ℚ) :=
  match down_sample_one img cmp_dim with
  | Except.error e => Except.error e
  | Except.ok g => Except.ok ((scaleGrid (clipGrid (poissonGrid noiseRC g))).flatten)

/-- Embedding of `v.reshape(d, d)` of a flat vector: row `i` is the `d` entries starting
at offset `i*d` (numpy row-major order). -/
def reshape2 (v : List ℚ) (d : ℕ) : List (List ℚ) :=
  (List.range d).map (fun i => (v.drop (i * d)).take d)

/-- A Keras fit history: an ordered association list from metric key to the
per-epoch values recorded for that metric (a Python `dict` of lists). -/
abbrev Hist (V : Type) := List (String × List V)

/-- Value `history[key]` with a default, used only to state theorems. -/
def histVal {V : Type} (h : Hist V) (k : String) : List V :=
  (h.lookup k).getD []

/-- The history merge of `fit_model`:
`for key in fit_hist_all.keys(): fit_hist_all[key] = fit_hist_all[key] + fit_hist.history[key]`,
raising `KeyError` if the new stage's history lacks a key of the
accumulated one. -/
def mergeHist {V : Type} : Hist V → Hist V → Except PyErr (Hist V)
  | [], _ => Except.ok []
  | (k, vs) :: rest, new =>
    match new.lookup k with
    | none => Except.error (PyErr.keyError k)
    | some ws =>
      match mergeHist rest new with
      | Except.error e => Except.error e
      | Except.ok tail => Except.ok ((k, vs ++ ws) :: tail)

/-- The training-stage loop of `fit_model`.  The training framework's
`in_model.fit(...)` call is the oracle `fitf model epochs batchSize`,
returning the updated model and the stage's history.  The accumulator mirrors
the Python local `fit_hist_all`, which is unbound (`none`) until the
iteration with `idx == 0` assigns it. -/
def fitLoop {M V : Type} (fitf : M → ℕ → ℕ → M × Hist V) :
    M → Option (Hist V) → List (ℕ × ℕ) → Except PyErr (M × Option (Hist V))
  | m, acc, [] => Except.ok (m, acc)
  | m, none, (e, b) :: rest =>
    let fr := fitf m e b
    fitLoop fitf fr.1 (some fr.2) rest
  | m, some hAll, (e, b) :: rest =>
    let fr := fitf m e b
    match mergeHist hAll fr.2 with
    | Except.error er => Except.error er
    | Except.ok merged => fitLoop fitf fr.1 (some merged) rest

/-- Embedding of `fit_model(in_model, epochs_list, batch_sizes, input_data, output_data)`:
raise `ValueError` when the two lists differ in length, otherwise run one
`in_model.fit` stage per `(epochs, batch_size)` pair, merging histories.
Returning `fit_hist_all` when it was never assigned (empty lists) raises
Python's unbound-local error.  The data arrays are captured inside the `fitf`
oracle, since the embedded control flow never inspects them. -/
def fit_model {M V : Type} (fitf : M → ℕ → ℕ → M × Hist V) (in_model : M)
    (epochs_list batch_sizes : List ℕ) : Except PyErr (M × Hist V) :=
  if epochs_list.length ≠ batch_sizes.length then
    Except.error (PyErr.valueError "Input lists must be of equal size.")
  else
    match fitLoop fitf in_model none (epochs_list.zip batch_sizes) with
    | Except.error e => Except.error e
    | Except.ok (_, none) => Except.error (PyErr.unboundLocal "fit_hist_all")
    | Except.ok (m, some h) => Except.ok (m, h)

/-- The reference sequence of stages: thread the model through `fitf` once
per `(epochs, batch_size)` pair, in list order, collecting each stage's
history.  Used to state what `fit_model` computes. -/
def stagesFrom {M V : Type} (fitf : M → ℕ → ℕ → M × Hist V) :
    M → List (ℕ × ℕ) → M × List (Hist V)
  | m, [] => (m, [])
  | m, (e, b) :: rest =>
    let fr := fitf m e b
    let r := stagesFrom fitf fr.1 rest
    (r.1, fr.2 :: r.2)

/-- Embedding of `tensorflow.keras.utils.to_categorical(label, num_classes)` for a single
scalar label: the one-hot row vector of length `num_classes`. -/
def to_categorical (label num_classes : ℕ) : List ℕ :=
  (List.range num_classes).map (fun i => if i = label then 1 else 0)

/-- The label transformation of the Load Training Data cell:
`labels = labels - 1` followed by `to_categorical(labels, num_classes=26)`. -/
def label_transform (raw : ℕ) : List ℕ :=
  to_categorical (raw - 1) 26

/-- The synthetic all-value-100 28×28 image of the end-to-end scenario. -/
def img100 : List (List ℚ) := List.replicate 28 (List.replicate 28 100)

/-- An all-zero 28×28 image, used as a concrete well-formed input. -/
def img0 : List (List ℚ) := List.replicate 28 (List.replicate 28 0)

/-- A 28×28 image is well-formed: 28 rows, each of 28 pixels. -/
def wf28 (img : List (List ℚ)) : Prop :=
  img.length = 28 ∧ ∀ r ∈ img, r.length = 28

instance : DecidablePred wf28 := fun img => by
  unfold wf28; infer_instance

/-! ## Theorems -/

/-- C3: for every input grid, `median_downsampling` at compression level 28 is
the identity transform — level 28 is not below 15, so the function returns the
input unchanged. -/
theorem median_downsampling_28_identity (img : List (List ℚ)) :
    median_downsampling img 28 = img := rfl

/-- C10: calling `fit_model` with two empty lists passes the equal-length
check and runs no training stage, but then fails with Python's unbound-local
error, because `fit_hist_all` is returned without ever being assigned. -/
theorem fit_model_empty_lists_unbound (M V : Type) (fitf : M → ℕ → ℕ → M × Hist V)
    (m : M) :
    fit_model fitf m [] [] = Except.error (PyErr.unboundLocal "fit_hist_all") := rfl

/-- C6: for every raw 1-indexed label in 1..26, subtracting 1 and one-hot
expanding to 26 classes gives a vector summing to 1, with entry 1 exactly at
index `raw - 1` and 0 elsewhere. -/
theorem label_transform_one_hot (raw : ℕ) (h1 : 1 ≤ raw) (h2 : raw ≤ 26) :
    (label_transform raw).sum = 1 ∧
    (label_transform raw).getD (raw - 1) 0 = 1 ∧
    ∀ i, i < 26 → i ≠ raw - 1 → (label_transform raw).getD i 0 = 0 := by
  interval_cases raw <;> exact (by decide)

/-- Witness for C6 at the concrete raw label 7. -/
theorem label_transform_one_hot_witness :
    (label_transform 7).sum = 1 ∧ (label_transform 7).getD 6 0 = 1 ∧
    ∀ i, i < 26 → i ≠ 6 → (label_transform 7).getD i 0 = 0 :=
  label_transform_one_hot 7 (by decide) (by decide)

lemma mergeHist_error_keyError {V : Type} :
    ∀ (a b : Hist V) (e : PyErr), mergeHist a b = Except.error e →
      ∃ k, e = PyErr.keyError k := by
  intro a
  induction a with
  | nil => intro b e h; simp [mergeHist] at h
  | cons kv rest ih =>
    intro b e h
    obtain ⟨k, vs⟩ := kv
    simp only [mergeHist] at h
    cases hl : b.lookup k with
    | none => rw [hl] at h; simp at h; exact ⟨k, h.symm⟩
    | some ws =>
      rw [hl] at h
      cases hm : mergeHist rest b with
      | error e2 =>
        rw [hm] at h
        have he : e2 = e := by simpa using h
        subst he
        exact ih b e2 hm
      | ok tail => rw [hm] at h; simp at h

lemma fitLoop_error_keyError {M V : Type} (fitf : M → ℕ → ℕ → M × Hist V) :
    ∀ (pairs : List (ℕ × ℕ)) (m : M) (acc : Option (Hist V)) (e : PyErr),
      fitLoop fitf m acc pairs = Except.error e → ∃ k, e = PyErr.keyError k := by
  intro pairs
  induction pairs with
  | nil => intro m acc e h; simp [fitLoop] at h
  | cons eb rest ih =>
    intro m acc e h
    obtain ⟨ep, b⟩ := eb
    cases acc with
    | none => exact ih _ _ _ h
    | some hAll =>
      simp only [fitLoop] at h
      cases hm : mergeHist hAll (fitf m ep b).2 with
      | error er =>
        rw [hm] at h
        have he : er = e := by simpa using h
        subst he
        exact mergeHist_error_keyError hAll (fitf m ep b).2 er hm
      | ok merged => rw [hm] at h; exact ih _ _ _ h

/-- C1: `fit_model` raises `ValueError` exactly when `epochs_list` and
`batch_sizes` differ in length.  The error branch returns before the loop
body ever consults the `fitf` training oracle (the equation holds for every
`fitf`, so no training iteration runs and the model is untouched); with equal
lengths, a `ValueError` is never produced. -/
theorem fit_model_length_check {M V : Type} (fitf : M → ℕ → ℕ → M × Hist V)
    (m : M) (epochs_list batch_sizes : List ℕ) :
    (epochs_list.length ≠ batch_sizes.length →
      fit_model fitf m epochs_list batch_sizes =
        Except.error (PyErr.valueError "Input lists must be of equal size.")) ∧
    (epochs_list.length = batch_sizes.length →
      ∀ s, fit_model fitf m epochs_list batch_sizes ≠
        Except.error (PyErr.valueError s)) := by
  constructor
  · intro h
    simp [fit_model, h]
  · intro h s hcontra
    simp only [fit_model, h, ne_eq, not_true_eq_false, if_false] at hcontra
    cases hfit : fitLoop fitf m none (epochs_list.zip batch_sizes) with
    | error e =>
      rw [hfit] at hcontra
      obtain ⟨k, hk⟩ := fitLoop_error_keyError fitf _ _ _ _ hfit
      subst hk
      simp at hcontra
    | ok p =>
      obtain ⟨m2, acc⟩ := p
      cases acc with
      | none => rw [hfit] at hcontra; simp at hcontra
      | some hh => rw [hfit] at hcontra; simp at hcontra

/-- A concrete training oracle used by the witnesses: the model is a counter
advanced by the epoch count, and each stage records one value under the
single metric key named loss. -/
def fitfW : ℕ → ℕ → ℕ → ℕ × Hist ℕ := fun m e _ => (m + e, [("loss", [m])])

/-- Witness for C1: mismatched lengths (2 vs 1) raise the `ValueError`;
matched lengths (2 vs 2) never do. -/
theorem fit_model_length_check_witness :
    fit_model fitfW 0 [20, 30] [100] =
      Except.error (PyErr.valueError "Input lists must be of equal size.") ∧
    fit_model fitfW 0 [20, 30] [100, 150] ≠
      Except.error (PyErr.valueError "boom") :=
  ⟨(fit_model_length_check fitfW 0 [20, 30] [100]).1 (by decide),
   (fit_model_length_check fitfW 0 [20, 30] [100, 150]).2 (by decide) "boom"⟩

lemma getD_range_map {α : Type} (f : ℕ → α) (n i : ℕ) (d : α) (h : i < n) :
    ((List.range n).map f).getD i d = f i := by
  rw [List.getD_eq_getElem _ _ (by simp [h])]
  simp

/-- C2: for every well-formed 28×28 grid and level in {4, 7, 14}, the result
of `median_downsampling` is a level×level grid whose `(i, j)` entry is the
exact `np.median` of the `(28/level)×(28/level)` window at offset
`(i·w, j·w)` — with step equal to the window size these windows are exactly
the non-overlapping blocks of the input.  In particular the all-100 image at
level 4 yields the all-100 4×4 grid. -/
theorem median_downsampling_block_median (img : List (List ℚ)) (level : ℕ)
    (hwf : wf28 img) (hl : level = 4 ∨ level = 7 ∨ level = 14) :
    (median_downsampling img level).length = level ∧
    (∀ row ∈ median_downsampling img level, row.length = level) ∧
    (∀ i, i < level → ∀ j, j < level →
      ((median_downsampling img level).getD i []).getD j 0 =
        npMedian (windowVals img (28 / level) i j)) ∧
    median_downsampling img100 4 = List.replicate 4 (List.replicate 4 100) := by
  obtain ⟨hlen, hrows⟩ := hwf
  have hlt : level < 15 := by rcases hl with h | h | h <;> subst h <;> decide
  have hhead : (img.headD []).length = 28 := by
    cases img with
    | nil => simp at hlen
    | cons r t => exact hrows r (by simp)
  have hnw : nWindows 28 (28 / level) = level := by
    rcases hl with h | h | h <;> subst h <;> decide
  have hmd : median_downsampling img level =
      (List.range level).map (fun i =>
        (List.range level).map (fun j =>
          npMedian (windowVals img (28 / level) i j))) := by
    unfold median_downsampling
    rw [if_pos hlt]
    simp only [hlen, hhead, hnw]
  refine ⟨?_, ?_, ?_, by decide⟩
  · rw [hmd]; simp
  · intro row hrow
    rw [hmd] at hrow
    obtain ⟨i, hi, hrow⟩ := List.mem_map.mp hrow
    subst hrow
    simp
  · intro i hi j hj
    rw [hmd, getD_range_map _ _ _ _ hi, getD_range_map _ _ _ _ hj]

/-- Witness for C2 at the all-100 image with level 4. -/
theorem median_downsampling_block_median_witness :
    wf28 img100 ∧ (4 = 4 ∨ 4 = 7 ∨ 4 = 14) ∧
    (median_downsampling img100 4).length = 4 :=
  ⟨by decide, Or.inl rfl,
   (median_downsampling_block_median img100 4 (by decide) (Or.inl rfl)).1⟩

lemma broadcastRow_self (r : List ℚ) (d : ℕ) (h : r.length = d) :
    broadcastRow r d = some r := by
  simp [broadcastRow, h]

lemma broadcastRows_self (d : ℕ) :
    ∀ m : List (List ℚ), (∀ r ∈ m, r.length = d) → broadcastRows m d = some m := by
  intro m
  induction m with
  | nil => intro _; rfl
  | cons r rest ih =>
    intro h
    simp only [broadcastRows, broadcastRow_self r d (h r (by simp)),
      ih (fun y hy => h y (by simp [hy]))]

lemma broadcast2_self (m : List (List ℚ)) (d : ℕ) (h1 : m.length = d)
    (h2 : ∀ r ∈ m, r.length = d) : broadcast2 m d = some m := by
  simp only [broadcast2, h1, if_true]
  exact broadcastRows_self d m h2

lemma broadcast2_none (m : List (List ℚ)) (d : ℕ) (h1 : m.length ≠ d)
    (h2 : m.length ≠ 1) : broadcast2 m d = none := by
  simp [broadcast2, h1, h2]

lemma md_shape (img : List (List ℚ)) (d : ℕ) (hwf : wf28 img) (h0 : 0 < d)
    (h15 : d < 15) :
    (median_downsampling img d).length = 28 / (28 / d) ∧
    ∀ r ∈ median_downsampling img d, r.length = 28 / (28 / d) := by
  obtain ⟨hlen, hrows⟩ := hwf
  have hhead : (img.headD []).length = 28 := by
    cases img with
    | nil => simp at hlen
    | cons r t => exact hrows r (by simp)
  have hw0 : 0 < 28 / d := Nat.div_pos (by omega) h0
  have hnw : nWindows 28 (28 / d) = 28 / (28 / d) := by
    unfold nWindows
    exact (Nat.div_eq_sub_div hw0 (Nat.div_le_self _ _)).symm
  unfold median_downsampling
  rw [if_pos h15]
  simp only [hlen, hhead, hnw]
  constructor
  · simp
  · intro r hr
    obtain ⟨i, _, rfl⟩ := List.mem_map.mp hr
    simp

lemma down_sample_list_ok_single (img : List (List ℚ)) (d : ℕ)
    (h1 : (median_downsampling img d).length = d)
    (h2 : ∀ r ∈ median_downsampling img d, r.length = d) :
    down_sample_list [img] d = Except.ok [median_downsampling img d] := by
  simp [down_sample_list, down_sample_one, broadcast2_self _ _ h1 h2]

lemma down_sample_list_err_single (img : List (List ℚ)) (d : ℕ)
    (h1 : (median_downsampling img d).length ≠ d)
    (h2 : (median_downsampling img d).length ≠ 1) :
    down_sample_list [img] d =
      Except.error (PyErr.valueError "could not broadcast input array") := by
  simp [down_sample_list, down_sample_one, broadcast2_none _ _ h1 h2]

/-- C9 (amended): the Dataset Builder never validates the compression level;
for a well-formed 28×28 image and a level `d` with `0 < d < 15`, processing
fails — as a downstream broadcast error raised during array assembly — when
and only when the window count `28 / (28 / d)` differs from `d`.  Levels 6,
8, 10, 11, 12, 13 fail this way, while the non-dividing levels 3, 5 and 9
have `28 / (28 / d) = d` and are silently processed into a `d×d` grid whose
windows truncate the image borders. -/
theorem down_sample_nondividing (img : List (List ℚ)) (d : ℕ)
    (hwf : wf28 img) (h0 : 0 < d) (h15 : d < 15) :
    (28 / (28 / d) = d →
      down_sample_list [img] d = Except.ok [median_downsampling img d]) ∧
    (28 / (28 / d) ≠ d →
      down_sample_list [img] d =
        Except.error (PyErr.valueError "could not broadcast input array")) := by
  have hsh := md_shape img d hwf h0 h15
  constructor
  · intro hEq
    exact down_sample_list_ok_single img d (hsh.1.trans hEq)
      (fun r hr => (hsh.2 r hr).trans hEq)
  · intro hNe
    apply down_sample_list_err_single img d
    · rw [hsh.1]; exact hNe
    · rw [hsh.1]
      intro h1
      interval_cases d <;> revert hNe h1 <;> decide

/-- Counterexample for C9 as stated: level 3 is below 15 and does not divide
28 evenly, yet `down_sample_list` succeeds on it (no array-shape failure),
returning a 3×3 grid computed from truncated 9×9 windows. -/
theorem down_sample_nondividing_counterexample :
    ¬ (3 ∣ 28) ∧ 3 < 15 ∧
    down_sample_list [img0] 3 = Except.ok [median_downsampling img0 3] ∧
    (median_downsampling img0 3).length = 3 :=
  ⟨by decide, by decide, by decide, by decide⟩

/-- Witness for C9 (amended) at level 6, where the window count is 7 and the
assignment into the 6×6 slot fails with the broadcast `ValueError`. -/
theorem down_sample_nondividing_witness :
    down_sample_list [img0] 6 =
      Except.error (PyErr.valueError "could not broadcast input array") :=
  (down_sample_nondividing img0 6 (by decide) (by decide) (by decide)).2 (by decide)

lemma down_sample_list_ok_spec :
    ∀ (arr : List (List (List ℚ))) (d : ℕ) (out : List (List (List ℚ))),
      down_sample_list arr d = Except.ok out →
      out.length = arr.length ∧
      ∀ i, i < arr.length →
        down_sample_one (arr.getD i []) d = Except.ok (out.getD i []) := by
  intro arr
  induction arr with
  | nil =>
    intro d out h
    simp only [down_sample_list] at h
    have : out = [] := by simpa using h.symm
    subst this
    exact ⟨rfl, fun i hi => by simp at hi⟩
  | cons img rest ih =>
    intro d out h
    simp only [down_sample_list] at h
    cases h1 : down_sample_one img d with
    | error e => rw [h1] at h; simp at h
    | ok g =>
      rw [h1] at h
      cases h2 : down_sample_list rest d with
      | error e => rw [h2] at h; simp at h
      | ok gs =>
        rw [h2] at h
        have : out = g :: gs := by simpa using h.symm
        subst this
        obtain ⟨hlen, hidx⟩ := ih d gs h2
        refine ⟨by simp [hlen], ?_⟩
        intro i hi
        cases i with
        | zero => simpa using h1
        | succ n => simpa using hidx n (by simpa using hi)

lemma create_ok_elim {noiseTr noiseTe : ℕ → ℕ → ℕ → ℚ → ℕ}
    {tr te : List (List (List ℚ))} {d od : ℕ} {ntr nte : List (List ℚ)}
    (h : create_training_data noiseTr noiseTe tr te d od = Except.ok (ntr, nte)) :
    ∃ ctr cte, down_sample_list tr d = Except.ok ctr ∧
      down_sample_list te d = Except.ok cte ∧
      ntr = (noisyGrids noiseTr ctr).map List.flatten ∧
      nte = (noisyGrids noiseTe cte).map List.flatten := by
  unfold create_training_data at h
  cases h1 : down_sample_list tr d with
  | error e => rw [h1] at h; simp [Bind.bind, Except.bind] at h
  | ok ctr =>
    rw [h1] at h
    cases h2 : down_sample_list te d with
    | error e => rw [h2] at h; simp [Bind.bind, Except.bind] at h
    | ok cte =>
      rw [h2] at h
      simp only [Bind.bind, Except.bind, pure, Except.pure, Except.ok.injEq,
        Prod.mk.injEq] at h
      exact ⟨ctr, cte, rfl, rfl, h.1.symm, h.2.symm⟩

lemma noisyGrids_length (noise : ℕ → ℕ → ℕ → ℚ → ℕ) (cmp : List (List (List ℚ))) :
    (noisyGrids noise cmp).length = cmp.length := by
  simp [noisyGrids, clipArr, poissonArr, List.enum_length]

lemma noisyGrids_getD (noise : ℕ → ℕ → ℕ → ℚ → ℕ) (cmp : List (List (List ℚ)))
    (i : ℕ) (hi : i < cmp.length) :
    (noisyGrids noise cmp).getD i [] =
      scaleGrid (clipGrid (poissonGrid (noise i) (cmp.getD i []))) := by
  rw [List.getD_eq_getElem _ _ (by rw [noisyGrids_length]; exact hi),
    List.getD_eq_getElem _ _ hi]
  simp [noisyGrids, clipArr, poissonArr, List.getElem_map, List.getElem_enum]

lemma poissonGrid_length (nRC : ℕ → ℕ → ℚ → ℕ) (g : List (List ℚ)) :
    (poissonGrid nRC g).length = g.length := by
  simp [poissonGrid, List.enum_length]

lemma pipelineGrid_shape (nRC : ℕ → ℕ → ℚ → ℕ) (g : List (List ℚ)) (d : ℕ)
    (h1 : g.length = d) (h2 : ∀ r ∈ g, r.length = d) :
    (scaleGrid (clipGrid (poissonGrid nRC g))).length = d ∧
    ∀ r ∈ scaleGrid (clipGrid (poissonGrid nRC g)), r.length = d := by
  constructor
  · simp [scaleGrid, clipGrid, poissonGrid, List.enum_length, h1]
  · intro r hr
    simp only [scaleGrid, List.mem_map] at hr
    obtain ⟨r1, hr1, rfl⟩ := hr
    simp only [clipGrid, List.mem_map] at hr1
    obtain ⟨r0, hr0, rfl⟩ := hr1
    simp only [poissonGrid, List.mem_map] at hr0
    obtain ⟨ri, hri, rfl⟩ := hr0
    have : ri.2 ∈ g := List.snd_mem_of_mem_enum hri
    simp only [List.length_map, List.enum_length]
    exact h2 ri.2 this

lemma broadcastRow_some_length (r r2 : List ℚ) (d : ℕ)
    (h : broadcastRow r d = some r2) : r2.length = d := by
  unfold broadcastRow at h
  by_cases h1 : r.length = d
  · rw [if_pos h1] at h
    have : r = r2 := by simpa using h
    subst this
    exact h1
  · rw [if_neg h1] at h
    by_cases h2 : r.length = 1
    · rw [if_pos h2] at h
      have : List.replicate d (r.getD 0 0) = r2 := by simpa using h
      subst this
      simp
    · rw [if_neg h2] at h
      simp at h

lemma broadcastRows_some_shape (d : ℕ) :
    ∀ (m g : List (List ℚ)), broadcastRows m d = some g →
      g.length = m.length ∧ ∀ r ∈ g, r.length = d := by
  intro m
  induction m with
  | nil =>
    intro g h
    have : g = [] := by simpa [broadcastRows] using h.symm
    subst this
    simp
  | cons r rest ih =>
    intro g h
    simp only [broadcastRows] at h
    cases hr : broadcastRow r d with
    | none => rw [hr] at h; simp at h
    | some r2 =>
      rw [hr] at h
      cases hrest : broadcastRows rest d with
      | none => rw [hrest] at h; simp at h
      | some rest2 =>
        rw [hrest] at h
        have : g = r2 :: rest2 := by simpa using h.symm
        subst this
        obtain ⟨hlen, hrows⟩ := ih rest2 hrest
        refine ⟨by simp [hlen], ?_⟩
        intro x hx
        rcases List.mem_cons.mp hx with h | h
        · subst h; exact broadcastRow_some_length r x d hr
        · exact hrows x h

lemma broadcast2_some_shape (m g : List (List ℚ)) (d : ℕ)
    (h : broadcast2 m d = some g) :
    g.length = d ∧ ∀ r ∈ g, r.length = d := by
  unfold broadcast2 at h
  by_cases h1 : m.length = d
  · rw [if_pos h1] at h
    obtain ⟨hlen, hrows⟩ := broadcastRows_some_shape d m g h
    exact ⟨hlen.trans h1, hrows⟩
  · rw [if_neg h1] at h
    by_cases h2 : m.length = 1
    · rw [if_pos h2] at h
      obtain ⟨hlen, hrows⟩ := broadcastRows_some_shape d _ g h
      exact ⟨hlen.trans (by simp), hrows⟩
    · rw [if_neg h2] at h
      simp at h

lemma down_sample_one_ok_shape (img g : List (List ℚ)) (d : ℕ)
    (h : down_sample_one img d = Except.ok g) :
    g.length = d ∧ ∀ r ∈ g, r.length = d := by
  unfold down_sample_one at h
  cases hb : broadcast2 (median_downsampling img d) d with
  | none => rw [hb] at h; simp at h
  | some g2 =>
    rw [hb] at h
    have : g2 = g := by simpa using h
    subst this
    exact broadcast2_some_shape _ _ _ hb

lemma take_drop_flatten (d : ℕ) :
    ∀ (g : List (List ℚ)), (∀ r ∈ g, r.length = d) →
      ∀ i, i < g.length → ((g.flatten.drop (i * d)).take d) = g.getD i [] := by
  intro g
  induction g with
  | nil => intro _ i hi; simp at hi
  | cons r t ih =>
    intro h i hi
    have hr : r.length = d := h r (by simp)
    cases i with
    | zero =>
      simp only [Nat.zero_mul, List.drop_zero, List.flatten_cons, List.getD_cons_zero]
      rw [← hr, List.take_left]
    | succ n =>
      have hn : n < t.length := by simpa using hi
      rw [List.getD_cons_succ, List.flatten_cons]
      have hstep : (r ++ t.flatten).drop ((n + 1) * d) = t.flatten.drop (n * d) := by
        have : (n + 1) * d = r.length + n * d := by rw [hr]; ring
        rw [this, ← List.drop_drop, List.drop_left]
      rw [hstep]
      exact ih (fun y hy => h y (by simp [hy])) n hn

lemma range_map_getD :
    ∀ (g : List (List ℚ)),
      (List.range g.length).map (fun i => g.getD i []) = g := by
  intro g
  induction g with
  | nil => simp
  | cons r t ih =>
    rw [List.length_cons, List.range_succ_eq_map, List.map_cons, List.getD_cons_zero,
      List.map_map]
    congr 1

lemma reshape2_flatten (g : List (List ℚ)) (d : ℕ) (h1 : g.length = d)
    (h2 : ∀ r ∈ g, r.length = d) : reshape2 g.flatten d = g := by
  unfold reshape2
  have key : ∀ i ∈ List.range d, (g.flatten.drop (i * d)).take d = g.getD i [] := by
    intro i hi
    exact take_drop_flatten d g h2 i (by rw [h1]; simpa using hi)
  rw [List.map_congr_left key, ← h1, range_map_getD]

lemma flatten_length_of_shape (g : List (List ℚ)) (d : ℕ)
    (h2 : ∀ r ∈ g, r.length = d) : g.flatten.length = g.length * d := by
  rw [List.length_flatten]
  have : g.map List.length = List.replicate g.length d := by
    rw [List.eq_replicate_iff]
    refine ⟨by simp, ?_⟩
    intro b hb
    obtain ⟨r, hr, rfl⟩ := List.mem_map.mp hb
    exact h2 r hr
  rw [this, List.sum_replicate, smul_eq_mul]

lemma down_sample_list_ok_mem_shape (arr : List (List (List ℚ))) (d : ℕ)
    (out : List (List (List ℚ))) (h : down_sample_list arr d = Except.ok out) :
    ∀ g ∈ out, g.length = d ∧ ∀ r ∈ g, r.length = d := by
  intro g hg
  obtain ⟨hlen, hidx⟩ := down_sample_list_ok_spec arr d out h
  obtain ⟨i, hi, rfl⟩ := List.mem_iff_getElem.mp hg
  have hi2 : i < arr.length := by omega
  have hok := hidx i hi2
  rw [List.getD_eq_getElem _ _ hi] at hok
  exact down_sample_one_ok_shape _ _ _ hok

lemma getD_map_of_lt {α β : Type} (f : α → β) (l : List α) (i : ℕ)
    (dA : α) (dB : β) (h : i < l.length) :
    (l.map f).getD i dB = f (l.getD i dA) := by
  rw [List.getD_eq_getElem _ _ (by simpa using h), List.getD_eq_getElem _ _ h,
    List.getElem_map]

lemma sample_pipeline_ok (nRC : ℕ → ℕ → ℚ → ℕ) (d : ℕ)
    (img g : List (List ℚ)) (h : down_sample_one img d = Except.ok g) :
    sample_pipeline nRC d img =
      Except.ok ((scaleGrid (clipGrid (poissonGrid nRC g))).flatten) := by
  unfold sample_pipeline
  rw [h]

/-- C8: the Dataset Builder transformations preserve sample count and index
alignment.  On success, `down_sample_list` returns one output per input, and
output `i` is `down_sample_one` of input `i` alone; `create_training_data`
returns one flattened noisy vector per input sample, and vector `i` is the
per-sample pipeline applied to input image `i` alone (with the sample's own
noise draws).  No reordering or shuffling occurs. -/
theorem builder_index_alignment :
    (∀ (arr : List (List (List ℚ))) (d : ℕ) (out : List (List (List ℚ))),
      down_sample_list arr d = Except.ok out →
      out.length = arr.length ∧
      ∀ i, i < arr.length →
        down_sample_one (arr.getD i []) d = Except.ok (out.getD i [])) ∧
    (∀ (noiseTr noiseTe : ℕ → ℕ → ℕ → ℚ → ℕ) (tr te : List (List (List ℚ)))
      (d od : ℕ) (ntr nte : List (List ℚ)),
      create_training_data noiseTr noiseTe tr te d od = Except.ok (ntr, nte) →
      ntr.length = tr.length ∧ nte.length = te.length ∧
      (∀ i, i < tr.length →
        sample_pipeline (noiseTr i) d (tr.getD i []) = Except.ok (ntr.getD i [])) ∧
      (∀ i, i < te.length →
        sample_pipeline (noiseTe i) d (te.getD i []) = Except.ok (nte.getD i []))) := by
  refine ⟨down_sample_list_ok_spec, ?_⟩
  intro noiseTr noiseTe tr te d od ntr nte h
  obtain ⟨ctr, cte, h1, h2, h3, h4⟩ := create_ok_elim h
  obtain ⟨hl1, hi1⟩ := down_sample_list_ok_spec tr d ctr h1
  obtain ⟨hl2, hi2⟩ := down_sample_list_ok_spec te d cte h2
  subst h3 h4
  have len1 : ((noisyGrids noiseTr ctr).map List.flatten).length = tr.length := by
    simp [noisyGrids_length, hl1]
  have len2 : ((noisyGrids noiseTe cte).map List.flatten).length = te.length := by
    simp [noisyGrids_length, hl2]
  refine ⟨len1, len2, ?_, ?_⟩
  · intro i hi
    have hic : i < ctr.length := by omega
    rw [sample_pipeline_ok _ _ _ _ (hi1 i hi),
      getD_map_of_lt List.flatten _ i [] [] (by rw [noisyGrids_length]; omega),
      noisyGrids_getD noiseTr ctr i hic]
  · intro i hi
    have hic : i < cte.length := by omega
    rw [sample_pipeline_ok _ _ _ _ (hi2 i hi),
      getD_map_of_lt List.flatten _ i [] [] (by rw [noisyGrids_length]; omega),
      noisyGrids_getD noiseTe cte i hic]

/-- Constant Poisson sampler used by concrete witnesses: every draw is `k`. -/
def noiseK (k : ℕ) : ℕ → ℕ → ℕ → ℚ → ℕ := fun _ _ _ _ => k

set_option maxRecDepth 20000 in
/-- Witness for C8 on one 28×28 zero image at level 28 with all-zero draws. -/
theorem builder_index_alignment_witness :
    sample_pipeline (noiseK 0 0) 28 img0 = Except.ok (List.replicate 784 0) ∧
    down_sample_one img0 28 = Except.ok img0 := by
  constructor
  · have h := (builder_index_alignment.2 (noiseK 0) (noiseK 0) [img0] [] 28 28
      [List.replicate 784 0] [] (by with_unfolding_all rfl)).2.2.1 0 (by decide)
    simpa using h
  · have h := (builder_index_alignment.1 [img0] 28 [img0] (by decide)).2 0 (by decide)
    simpa using h

lemma noisy_vec_spec (noise : ℕ → ℕ → ℕ → ℚ → ℕ) (c : List (List (List ℚ)))
    (d : ℕ) (hc : ∀ g ∈ c, g.length = d ∧ ∀ r ∈ g, r.length = d) :
    ∀ v ∈ (noisyGrids noise c).map List.flatten,
      v.length = d ^ 2 ∧
      ∃ g, g.length = d ∧ (∀ r ∈ g, r.length = d) ∧ v = g.flatten ∧
        reshape2 v d = g := by
  intro v hv
  obtain ⟨g2, hg2, rfl⟩ := List.mem_map.mp hv
  have hshape : g2.length = d ∧ ∀ r ∈ g2, r.length = d := by
    simp only [noisyGrids, List.mem_map] at hg2
    obtain ⟨g1, hg1, rfl⟩ := hg2
    simp only [clipArr, List.mem_map] at hg1
    obtain ⟨g0, hg0, rfl⟩ := hg1
    simp only [poissonArr, List.mem_map] at hg0
    obtain ⟨si, hsi, rfl⟩ := hg0
    have hmem := List.snd_mem_of_mem_enum hsi
    exact pipelineGrid_shape (noise si.1) si.2 d (hc si.2 hmem).1 (hc si.2 hmem).2
  refine ⟨?_, g2, hshape.1, hshape.2, rfl,
    reshape2_flatten g2 d hshape.1 hshape.2⟩
  rw [flatten_length_of_shape g2 d hshape.2, hshape.1, pow_two]

/-- C5: on success, `create_training_data` emits one vector per sample whose
length is the squared compression level; every vector is the row-major
flattening of its pre-flatten level×level scaled noisy grid, and `reshape2`
recovers that grid exactly. -/
theorem noisy_flatten_row_major (noiseTr noiseTe : ℕ → ℕ → ℕ → ℚ → ℕ)
    (tr te : List (List (List ℚ))) (d od : ℕ) (ntr nte : List (List ℚ))
    (h : create_training_data noiseTr noiseTe tr te d od = Except.ok (ntr, nte)) :
    ntr.length = tr.length ∧ nte.length = te.length ∧
    ∀ v ∈ ntr ++ nte, v.length = d ^ 2 ∧
      ∃ g, g.length = d ∧ (∀ r ∈ g, r.length = d) ∧ v = g.flatten ∧
        reshape2 v d = g := by
  obtain ⟨ctr, cte, h1, h2, h3, h4⟩ := create_ok_elim h
  subst h3 h4
  refine ⟨by simp [noisyGrids_length, (down_sample_list_ok_spec tr d ctr h1).1],
          by simp [noisyGrids_length, (down_sample_list_ok_spec te d cte h2).1], ?_⟩
  intro v hv
  rcases List.mem_append.mp hv with hv1 | hv1
  · exact noisy_vec_spec noiseTr ctr d
      (down_sample_list_ok_mem_shape tr d ctr h1) v hv1
  · exact noisy_vec_spec noiseTe cte d
      (down_sample_list_ok_mem_shape te d cte h2) v hv1

set_option maxRecDepth 20000 in
/-- Witness for C5: the single emitted vector of a one-sample level-28 run
has length 28². -/
theorem noisy_flatten_row_major_witness :
    (List.replicate 784 (0:ℚ)).length = 28 ^ 2 :=
  ((noisy_flatten_row_major (noiseK 0) (noiseK 0) [img0] [] 28 28
    [List.replicate 784 0] [] (by with_unfolding_all rfl)).2.2
    (List.replicate 784 0) (by decide)).1

/-- C4: every clipped Poisson draw lies in [0, 255], and every entry of the
vectors emitted by `create_training_data` (after scaling by 1/255) lies in
[0, 1] — for every input and every sampler, no value falls outside either
range. -/
theorem noise_clip_scale_range :
    (∀ (arr : List (List (List ℕ))), ∀ m ∈ clipArr arr, ∀ r ∈ m, ∀ x ∈ r,
      0 ≤ x ∧ x ≤ 255) ∧
    (∀ (noiseTr noiseTe : ℕ → ℕ → ℕ → ℚ → ℕ) (tr te : List (List (List ℚ)))
      (d od : ℕ) (ntr nte : List (List ℚ)),
      create_training_data noiseTr noiseTe tr te d od = Except.ok (ntr, nte) →
      ∀ v ∈ ntr ++ nte, ∀ x ∈ v, 0 ≤ x ∧ x ≤ 1) := by
  have hclip : ∀ (arr : List (List (List ℕ))), ∀ m ∈ clipArr arr, ∀ r ∈ m,
      ∀ x ∈ r, 0 ≤ x ∧ x ≤ 255 := by
    intro arr m hm r hr x hx
    simp only [clipArr, List.mem_map] at hm
    obtain ⟨m0, _, rfl⟩ := hm
    simp only [clipGrid, List.mem_map] at hr
    obtain ⟨r0, _, rfl⟩ := hr
    simp only [List.mem_map] at hx
    obtain ⟨x0, _, rfl⟩ := hx
    unfold np_clip
    exact ⟨le_max_left 0 _, max_le (by norm_num) (min_le_right _ _)⟩
  refine ⟨hclip, ?_⟩
  intro noiseTr noiseTe tr te d od ntr nte h v hv x hx
  obtain ⟨ctr, cte, h1, h2, h3, h4⟩ := create_ok_elim h
  subst h3 h4
  have key : ∀ (noise : ℕ → ℕ → ℕ → ℚ → ℕ) (c : List (List (List ℚ))),
      v ∈ (noisyGrids noise c).map List.flatten → 0 ≤ x ∧ x ≤ 1 := by
    intro noise c hv1
    obtain ⟨g2, hg2, rfl⟩ := List.mem_map.mp hv1
    simp only [noisyGrids, List.mem_map] at hg2
    obtain ⟨g1, hg1, rfl⟩ := hg2
    obtain ⟨rr, hrr, hxr⟩ := List.mem_flatten.mp hx
    simp only [scaleGrid, List.mem_map] at hrr
    obtain ⟨r1, hr1, rfl⟩ := hrr
    simp only [List.mem_map] at hxr
    obtain ⟨z, hz, rfl⟩ := hxr
    have hb := hclip _ _ hg1 _ hr1 _ hz
    constructor
    · apply div_nonneg _ (by norm_num)
      exact_mod_cast hb.1
    · rw [div_le_one (by norm_num)]
      exact_mod_cast hb.2
  rcases List.mem_append.mp hv with hv1 | hv1
  · exact key noiseTr ctr hv1
  · exact key noiseTe cte hv1

set_option maxRecDepth 20000 in
/-- Witness for C4: a Poisson draw of 300 is clipped to 255 ∈ [0,255], and
with every draw equal to 300 the emitted scaled value is 1 ∈ [0,1]. -/
theorem noise_clip_scale_range_witness :
    ((0:ℤ) ≤ 255 ∧ (255:ℤ) ≤ 255) ∧ ((0:ℚ) ≤ 1 ∧ (1:ℚ) ≤ 1) :=
  ⟨noise_clip_scale_range.1 [[[300]]] [[(255:ℤ)]] (by decide)
      [(255:ℤ)] (by decide) 255 (by decide),
   noise_clip_scale_range.2 (noiseK 300) (noiseK 300) [img0] [] 28 28
      [List.replicate 784 1] [] (by with_unfolding_all rfl)
      (List.replicate 784 1) (by decide) 1 (by decide)⟩

lemma lookup_isSome_of_mem_keys {V : Type} :
    ∀ (h : Hist V) (k : String), k ∈ h.map Prod.fst →
      ∃ vs, h.lookup k = some vs := by
  intro h
  induction h with
  | nil => intro k hk; simp at hk
  | cons kv t ih =>
    intro k hk
    obtain ⟨k1, v1⟩ := kv
    by_cases he : k = k1
    · subst he
      exact ⟨v1, by simp [List.lookup]⟩
    · have hkt : k ∈ t.map Prod.fst := by
        simp only [List.map_cons, List.mem_cons] at hk
        rcases hk with h1 | h1
        · exact absurd h1 he
        · exact h1
      obtain ⟨vs, hvs⟩ := ih k hkt
      refine ⟨vs, ?_⟩
      simp only [List.lookup, beq_eq_false_iff_ne.mpr he, hvs]

lemma histVal_eq_of_lookup {V : Type} (h : Hist V) (k : String) (vs : List V)
    (hl : h.lookup k = some vs) : histVal h k = vs := by
  simp [histVal, hl]

lemma mergeHist_form {V : Type} :
    ∀ (ks : List String) (f : String → List V) (new : Hist V),
      (∀ k ∈ ks, ∃ vs, new.lookup k = some vs) →
      mergeHist (ks.map (fun k => (k, f k))) new =
        Except.ok (ks.map (fun k => (k, f k ++ histVal new k))) := by
  intro ks
  induction ks with
  | nil => intro f new _; simp [mergeHist]
  | cons k kt ih =>
    intro f new hnew
    obtain ⟨vs, hvs⟩ := hnew k (by simp)
    simp only [List.map_cons, mergeHist, hvs]
    rw [ih f new (fun y hy => hnew y (by simp [hy]))]
    rw [histVal_eq_of_lookup new k vs hvs]

lemma hist_self_form {V : Type} :
    ∀ (h : Hist V), (h.map Prod.fst).Nodup →
      h = (h.map Prod.fst).map (fun k => (k, histVal h k)) := by
  intro h
  induction h with
  | nil => intro _; rfl
  | cons kv t ih =>
    intro hnd
    obtain ⟨k1, v1⟩ := kv
    simp only [List.map_cons] at hnd ⊢
    obtain ⟨hk1, hndt⟩ := List.nodup_cons.mp hnd
    have hv1 : histVal ((k1, v1) :: t) k1 = v1 := by simp [histVal, List.lookup]
    rw [hv1]
    congr 1
    rw [List.map_congr_left (fun k hk => ?_), ← ih hndt]
    have hne : k ≠ k1 := fun he => hk1 (he ▸ hk)
    simp only [histVal, List.lookup, beq_eq_false_iff_ne.mpr hne]

lemma fitLoop_merge_form {M V : Type} (fitf : M → ℕ → ℕ → M × Hist V)
    (ks : List String)
    (hkeys : ∀ (m : M) (e b : ℕ), ((fitf m e b).2).map Prod.fst = ks) :
    ∀ (pairs : List (ℕ × ℕ)) (m : M) (f : String → List V),
      fitLoop fitf m (some (ks.map (fun k => (k, f k)))) pairs =
        Except.ok ((stagesFrom fitf m pairs).1,
          some (ks.map (fun k => (k, f k ++
            (((stagesFrom fitf m pairs).2).map (fun h => histVal h k)).flatten)))) := by
  intro pairs
  induction pairs with
  | nil => intro m f; simp [fitLoop, stagesFrom]
  | cons eb rest ih =>
    intro m f
    obtain ⟨e, b⟩ := eb
    simp only [fitLoop, stagesFrom]
    rw [mergeHist_form ks f (fitf m e b).2
      (fun k hk => lookup_isSome_of_mem_keys _ k (by rw [hkeys]; exact hk))]
    show fitLoop fitf (fitf m e b).1
        (some (ks.map (fun k => (k, f k ++ histVal (fitf m e b).2 k)))) rest = _
    rw [ih (fitf m e b).1 (fun k => f k ++ histVal (fitf m e b).2 k)]
    simp [List.append_assoc]

/-- C7: with equal-length non-empty lists (and a training oracle whose stage
histories all carry the same duplicate-free key list, as a Keras history
dict does), `fit_model` runs one stage per (epochs, batch size) pair
sequentially in list order, threading the model through the stages, and
returns that final model together with a history that holds, for every
metric key, the concatenation of the per-stage per-epoch records in stage
order. -/
theorem fit_model_staged_history {M V : Type} (fitf : M → ℕ → ℕ → M × Hist V)
    (in_model : M) (epochs_list batch_sizes : List ℕ) (ks : List String)
    (hlen : epochs_list.length = batch_sizes.length)
    (hne : epochs_list ≠ [])
    (hkeys : ∀ (m : M) (e b : ℕ), ((fitf m e b).2).map Prod.fst = ks)
    (hnd : ks.Nodup) :
    fit_model fitf in_model epochs_list batch_sizes =
      Except.ok ((stagesFrom fitf in_model (epochs_list.zip batch_sizes)).1,
        ks.map (fun k => (k,
          (((stagesFrom fitf in_model (epochs_list.zip batch_sizes)).2).map
            (fun h => histVal h k)).flatten))) := by
  cases epochs_list with
  | nil => exact absurd rfl hne
  | cons e el2 =>
    cases batch_sizes with
    | nil => simp at hlen
    | cons b bl2 =>
      unfold fit_model
      rw [if_neg (by simp [hlen])]
      rw [List.zip_cons_cons]
      rw [show fitLoop fitf in_model none ((e, b) :: el2.zip bl2) =
            fitLoop fitf (fitf in_model e b).1
              (some (fitf in_model e b).2) (el2.zip bl2) from rfl]
      have hself : (fitf in_model e b).2 =
          ks.map (fun k => (k, histVal (fitf in_model e b).2 k)) := by
        have h1 := hist_self_form ((fitf in_model e b).2)
          (by rw [hkeys]; exact hnd)
        rw [hkeys] at h1
        exact h1
      rw [hself,
        fitLoop_merge_form fitf ks hkeys (el2.zip bl2) (fitf in_model e b).1
          (fun k => histVal (fitf in_model e b).2 k)]
      simp [stagesFrom]

/-- Witness for C7: two stages with the single key loss; the merged history
is the concatenation of the two per-stage records. -/
theorem fit_model_staged_history_witness :
    fit_model fitfW 0 [2, 3] [10, 20] =
      Except.ok (5, [("loss", [0, 2])]) :=
  (fit_model_staged_history fitfW 0 [2, 3] [10, 20] ["loss"] rfl (by decide)
    (fun _ _ _ => rfl) (by decide)).trans (by decide)
